import Mathlib

/-!
Verification of the COSE / CWT library (package cose, key, iana).

The development shallowly embeds the parts of the library that the checked
properties concern:

* a model of CBOR data items (`CV`) together with the deterministic encoder
  used by the library through its CBOR dependency (shortest-form heads,
  definite lengths, map keys in the canonical order: non-negative keys
  ascending, then negative keys ascending by magnitude), and a fuel-based
  decoder;
* the `IntMap` container with its typed accessors (`GetInt`, `GetInt64`,
  `GetUint64`, `GetBytes`, `GetString`, `GetBool`);
* the `Mac0Message` state machine from cose/mac0.go (`Compute`, `Verify`,
  `MarshalCBOR`, `UnmarshalCBOR`, `ComputeAndEncode`, `VerifyMac0Message`,
  `Tag`), and the order-of-use gating of `Sign1Message`.

Go byte slices are `List Nat`, Go strings are their byte sequences, Go maps
with int keys are association lists with pairwise distinct keys.  A nil map
is `Option.none`, a non-nil map is `Option.some`.  Machine integers are
modelled as `Int` with the width checks of the accessors made explicit.
-/

/-- A CBOR data item as handled by the library.  `byteArr` stands for a Go
fixed-size byte array: it marshals exactly like a byte string but the typed
accessor `GetBytes` rejects it (per the repository test `TestIntMap`).
`text` carries the byte sequence of a Go string. -/
inductive CV where
  | int (n : Int)
  | bytes (bs : List Nat)
  | byteArr (bs : List Nat)
  | text (bs : List Nat)
  | arr (vs : List CV)
  | map (es : List (Int × CV))
  | tagged (t : Nat) (v : CV)
  | boolv (b : Bool)
  | nullv

/-- Big-endian bytes of `n`, exactly `k` bytes wide. -/
def beBytes : Nat → Nat → List Nat
  | 0, _ => []
  | k+1, n => n / 256 ^ k :: beBytes k (n % 256 ^ k)

/-- Shortest-form CBOR head for major type `maj` and argument `n`
(RFC 8949, deterministic encoding). -/
def encHead (maj : Nat) (n : Nat) : List Nat :=
  if n < 24 then [32 * maj + n]
  else if n < 256 then [32 * maj + 24, n]
  else if n < 65536 then (32 * maj + 25) :: beBytes 2 n
  else if n < 4294967296 then (32 * maj + 26) :: beBytes 4 n
  else (32 * maj + 27) :: beBytes 8 n

/-- Encoding of an integer (major type 0 for non-negative, 1 for negative). -/
def encIntKey (n : Int) : List Nat :=
  if 0 ≤ n then encHead 0 n.toNat else encHead 1 (-(n + 1)).toNat

/-- Canonical CBOR ordering of integer map keys: non-negative keys first,
ascending; then negative keys ascending by absolute magnitude.  This is the
bytewise order of the keys' deterministic encodings. -/
def keyLeB (a b : Int) : Bool :=
  if 0 ≤ a then decide (0 ≤ b) && decide (a ≤ b) || decide (b < 0)
  else decide (b < 0) && decide (b ≤ a)

/-- Strict version of `keyLeB`. -/
def keyLtB (a b : Int) : Bool :=
  keyLeB a b && decide (a ≠ b)

/-- Order on key/encoded-value pairs used to sort map entries. -/
def pairLe (a b : Int × List Nat) : Prop := keyLeB a.1 b.1 = true

instance : DecidableRel pairLe := fun _ _ => inferInstanceAs (Decidable (_ = true))

instance : IsTotal (Int × List Nat) pairLe where
  total := by
    intro a b
    simp only [pairLe, keyLeB]
    by_cases ha : (0 : Int) ≤ a.1 <;> by_cases hb : (0 : Int) ≤ b.1 <;>
      simp [ha, hb] <;> omega

instance : IsTrans (Int × List Nat) pairLe where
  trans := by
    intro a b c
    simp only [pairLe, keyLeB]
    by_cases ha : (0 : Int) ≤ a.1 <;> by_cases hb : (0 : Int) ≤ b.1 <;>
      by_cases hc : (0 : Int) ≤ c.1 <;> simp [ha, hb, hc] <;> omega

/-- Concatenates encoded key/value pairs of a map body. -/
def flattenPairs (ps : List (Int × List Nat)) : List Nat :=
  ps.flatMap fun p => encIntKey p.1 ++ p.2

mutual

/-- Deterministic CBOR encoding of a data item, as the library's CBOR
dependency produces it: shortest-form heads, definite lengths, and map
entries emitted in the canonical key order. -/
def encodeCV : CV → List Nat
  | .int n => encIntKey n
  | .bytes bs => encHead 2 bs.length ++ bs
  | .byteArr bs => encHead 2 bs.length ++ bs
  | .text bs => encHead 3 bs.length ++ bs
  | .arr vs => encHead 4 vs.length ++ encodeList vs
  | .map es => encHead 5 es.length ++ flattenPairs (List.insertionSort pairLe (encodePairs es))
  | .tagged t v => encHead 6 t ++ encodeCV v
  | .boolv b => [if b then 245 else 244]
  | .nullv => [246]

/-- Encodes the elements of an array in order. -/
def encodeList : List CV → List Nat
  | [] => []
  | v :: vs => encodeCV v ++ encodeList vs

/-- Encodes the values of map entries, keeping keys attached. -/
def encodePairs : List (Int × CV) → List (Int × List Nat)
  | [] => []
  | (k, v) :: es => (k, encodeCV v) :: encodePairs es

end

/-- An integer fits the range of CBOR integer heads (64-bit argument). -/
def wfInt (n : Int) : Bool :=
  decide (-18446744073709551616 ≤ n) && decide (n < 18446744073709551616)

/-- Map keys strictly ascend in the canonical order. -/
def sortedKeys (es : List (Int × CV)) : Bool :=
  match es with
  | [] => true
  | [_] => true
  | (j, _) :: (k, v) :: tl => keyLtB j k && sortedKeys ((k, v) :: tl)

mutual

/-- A data item round-trips through the codec: integers and lengths fit
64 bits, maps are canonically sorted, and no Go-only `byteArr` values occur
(they decode back as plain byte strings). -/
def wfCV : CV → Bool
  | .int n => wfInt n
  | .bytes bs => decide (bs.length < 18446744073709551616)
  | .byteArr _ => false
  | .text bs => decide (bs.length < 18446744073709551616)
  | .arr vs => decide (vs.length < 18446744073709551616) && wfCVList vs
  | .map es =>
      decide (es.length < 18446744073709551616) && sortedKeys es && wfCVPairs es
  | .tagged t v => decide (t < 18446744073709551616) && wfCV v
  | .boolv _ => true
  | .nullv => true

/-- All elements well-formed. -/
def wfCVList : List CV → Bool
  | [] => true
  | v :: vs => wfCV v && wfCVList vs

/-- All keys in integer range and all values well-formed. -/
def wfCVPairs : List (Int × CV) → Bool
  | [] => true
  | (k, v) :: es => wfInt k && wfCV v && wfCVPairs es

end

mutual

/-- Nesting depth of a data item; governs the decoder fuel. -/
def cvDepth : CV → Nat
  | .int _ => 1
  | .bytes _ => 1
  | .byteArr _ => 1
  | .text _ => 1
  | .arr vs => cvListDepth vs + 1
  | .map es => cvPairsDepth es + 1
  | .tagged _ v => cvDepth v + 1
  | .boolv _ => 1
  | .nullv => 1

/-- Greatest depth among array elements. -/
def cvListDepth : List CV → Nat
  | [] => 0
  | v :: vs => max (cvDepth v) (cvListDepth vs)

/-- Greatest depth among map values. -/
def cvPairsDepth : List (Int × CV) → Nat
  | [] => 0
  | (_, v) :: es => max (cvDepth v) (cvPairsDepth es)

end

/-- Reads `k` big-endian bytes into an accumulator. -/
def readBE : Nat → Nat → List Nat → Option (Nat × List Nat)
  | 0, acc, bs => some (acc, bs)
  | k+1, acc, b :: bs => readBE k (acc * 256 + b) bs
  | _+1, _, [] => none

/-- Reads the argument of a CBOR head given its additional-information
bits.  Indefinite lengths (information 31) are rejected. -/
def decodeArg (info : Nat) (bs : List Nat) : Option (Nat × List Nat) :=
  if info < 24 then some (info, bs)
  else if info = 24 then
    match bs with
    | b :: r => some (b, r)
    | [] => none
  else if info = 25 then readBE 2 0 bs
  else if info = 26 then readBE 4 0 bs
  else if info = 27 then readBE 8 0 bs
  else none

/-- Splits off the first `n` bytes when available. -/
def takeDrop (n : Nat) (bs : List Nat) : Option (List Nat × List Nat) :=
  if n ≤ bs.length then some (bs.take n, bs.drop n) else none

/-- Decodes `n` consecutive data items with the given item decoder. -/
def decodeN (dec : List Nat → Option (CV × List Nat)) :
    Nat → List Nat → Option (List CV × List Nat)
  | 0, bs => some ([], bs)
  | n+1, bs =>
    (dec bs).bind fun vr =>
      (decodeN dec n vr.2).bind fun ur => some (vr.1 :: ur.1, ur.2)

/-- Decodes `n` consecutive key/value pairs; keys must be integers, as in
every map the library reads or writes. -/
def decodeKVs (dec : List Nat → Option (CV × List Nat)) :
    Nat → List Nat → Option (List (Int × CV) × List Nat)
  | 0, bs => some ([], bs)
  | n+1, bs =>
    (dec bs).bind fun kr =>
      match kr.1 with
      | .int k =>
        (dec kr.2).bind fun vr =>
          (decodeKVs dec n vr.2).bind fun er => some ((k, vr.1) :: er.1, er.2)
      | _ => none

/-- One layer of the CBOR decoder: reads a head and dispatches on the major
type, delegating nested items to `dec`. -/
def decodeStep (dec : List Nat → Option (CV × List Nat)) (bs : List Nat) :
    Option (CV × List Nat) :=
  match bs with
  | [] => none
  | b :: tail =>
    (decodeArg (b % 32) tail).bind fun nr =>
      let n := nr.1
      let rest := nr.2
      if b / 32 = 0 then some (.int (Int.ofNat n), rest)
      else if b / 32 = 1 then some (.int (-1 - Int.ofNat n), rest)
      else if b / 32 = 2 then (takeDrop n rest).bind fun xr => some (.bytes xr.1, xr.2)
      else if b / 32 = 3 then (takeDrop n rest).bind fun xr => some (.text xr.1, xr.2)
      else if b / 32 = 4 then (decodeN dec n rest).bind fun vr => some (.arr vr.1, vr.2)
      else if b / 32 = 5 then (decodeKVs dec n rest).bind fun er => some (.map er.1, er.2)
      else if b / 32 = 6 then (dec rest).bind fun vr => some (.tagged n vr.1, vr.2)
      else if b = 244 then some (.boolv false, rest)
      else if b = 245 then some (.boolv true, rest)
      else if b = 246 then some (.nullv, rest)
      else none

/-- Fuel-bounded CBOR decoder; `decodeCV f` decodes any item of nesting
depth at most `f`. -/
def decodeCV (f : Nat) : List Nat → Option (CV × List Nat) :=
  Nat.rec (motive := fun _ => List Nat → Option (CV × List Nat))
    (fun _ => none) (fun _ ih => decodeStep ih) f

theorem decodeCV_succ (f : Nat) : decodeCV (f + 1) = decodeStep (decodeCV f) := rfl

theorem cvDepth_pos (v : CV) : 1 ≤ cvDepth v := by
  cases v <;> simp [cvDepth]

theorem beArith (acc n P : Nat) :
    (acc * 256 + n / P) * P + n % P = acc * (P * 256) + n := by
  have hdm := Nat.div_add_mod n P
  calc (acc * 256 + n / P) * P + n % P
      = acc * (P * 256) + (P * (n / P) + n % P) := by ring
    _ = acc * (P * 256) + n := by rw [hdm]

theorem readBE_beBytes :
    ∀ (k acc n : Nat) (rest : List Nat), n < 256 ^ k →
      readBE k acc (beBytes k n ++ rest) = some (acc * 256 ^ k + n, rest) := by
  intro k
  induction k with
  | zero =>
      intro acc n rest hn
      have hz : n = 0 := by simp at hn; omega
      subst hz
      simp [beBytes, readBE]
  | succ k IH =>
      intro acc n rest hn
      have hlt : n % 256 ^ k < 256 ^ k := Nat.mod_lt _ (by positivity)
      simp only [beBytes, List.cons_append, readBE, List.append_eq]
      rw [IH _ _ _ hlt, pow_succ, beArith]

theorem encHead_cons (maj n : Nat) (hn : n < 18446744073709551616)
    (rest : List Nat) :
    ∃ b tail, encHead maj n ++ rest = b :: tail ∧ b / 32 = maj ∧
      decodeArg (b % 32) tail = some (n, rest) := by
  unfold encHead
  by_cases h1 : n < 24
  · refine ⟨32 * maj + n, rest, by simp [h1], by omega, ?_⟩
    have hmod : (32 * maj + n) % 32 = n := by omega
    rw [hmod]
    simp [decodeArg, h1]
  · by_cases h2 : n < 256
    · refine ⟨32 * maj + 24, n :: rest, by simp [h1, h2], by omega, ?_⟩
      have hmod : (32 * maj + 24) % 32 = 24 := by omega
      rw [hmod]
      simp [decodeArg]
    · by_cases h3 : n < 65536
      · refine ⟨32 * maj + 25, beBytes 2 n ++ rest, by simp [h1, h2, h3], by omega, ?_⟩
        have hmod : (32 * maj + 25) % 32 = 25 := by omega
        rw [hmod]
        have := readBE_beBytes 2 0 n rest (by norm_num; omega)
        simpa [decodeArg] using this
      · by_cases h4 : n < 4294967296
        · refine ⟨32 * maj + 26, beBytes 4 n ++ rest, by simp [h1, h2, h3, h4], by omega, ?_⟩
          have hmod : (32 * maj + 26) % 32 = 26 := by omega
          rw [hmod]
          have := readBE_beBytes 4 0 n rest (by norm_num; omega)
          simpa [decodeArg] using this
        · refine ⟨32 * maj + 27, beBytes 8 n ++ rest, by simp [h1, h2, h3, h4], by omega, ?_⟩
          have hmod : (32 * maj + 27) % 32 = 27 := by omega
          rw [hmod]
          have := readBE_beBytes 8 0 n rest (by norm_num; omega)
          simpa [decodeArg] using this

theorem keyLeB_iff (a b : Int) :
    keyLeB a b = true ↔
      (0 ≤ a ∧ 0 ≤ b ∧ a ≤ b) ∨ (0 ≤ a ∧ b < 0) ∨ (a < 0 ∧ b < 0 ∧ b ≤ a) := by
  unfold keyLeB
  by_cases ha : (0 : Int) ≤ a <;> simp [ha] <;> omega

theorem keyLtB_iff (a b : Int) :
    keyLtB a b = true ↔
      (0 ≤ a ∧ 0 ≤ b ∧ a < b) ∨ (0 ≤ a ∧ b < 0) ∨ (a < 0 ∧ b < 0 ∧ b < a) := by
  unfold keyLtB
  rw [Bool.and_eq_true, keyLeB_iff]
  simp only [decide_eq_true_eq, ne_eq]
  omega

/-- Strict canonical order on key/encoded-value pairs. -/
def ltPair (a b : Int × List Nat) : Prop := keyLtB a.1 b.1 = true

instance : IsTrans (Int × List Nat) ltPair where
  trans := by
    intro a b c h1 h2
    unfold ltPair at *
    rw [keyLtB_iff] at *
    omega

theorem chain'_ltPair_encodePairs :
    ∀ es, sortedKeys es = true → List.Chain' ltPair (encodePairs es)
  | [], _ => by simp [encodePairs]
  | [(k, v)], _ => by
      simp only [encodePairs]
      exact List.chain'_singleton _
  | (j, u) :: (k, v) :: tl, hs => by
      have hkv : keyLtB j k = true ∧ sortedKeys ((k, v) :: tl) = true := by
        have : (keyLtB j k && sortedKeys ((k, v) :: tl)) = true := hs
        simpa [Bool.and_eq_true] using this
      have IH := chain'_ltPair_encodePairs ((k, v) :: tl) hkv.2
      simp only [encodePairs] at IH ⊢
      exact List.chain'_cons.mpr ⟨hkv.1, IH⟩

theorem insertionSort_sortedKeys (es : List (Int × CV)) (hs : sortedKeys es = true) :
    List.insertionSort pairLe (encodePairs es) = encodePairs es := by
  apply List.Sorted.insertionSort_eq
  have hch := chain'_ltPair_encodePairs es hs
  have hpw : List.Pairwise ltPair (encodePairs es) := List.chain'_iff_pairwise.mp hch
  refine hpw.imp ?_
  intro a b h
  unfold ltPair at h
  unfold pairLe
  rw [keyLtB_iff] at h
  rw [keyLeB_iff]
  omega

theorem decodeN_encodeList (f : Nat) (dec : List Nat → Option (CV × List Nat))
    (H : ∀ v rest, cvDepth v ≤ f → wfCV v = true → dec (encodeCV v ++ rest) = some (v, rest)) :
    ∀ (vs : List CV) (rest : List Nat), cvListDepth vs ≤ f → wfCVList vs = true →
      decodeN dec vs.length (encodeList vs ++ rest) = some (vs, rest) := by
  intro vs
  induction vs with
  | nil =>
      intro rest _ _
      simp [encodeList, decodeN]
  | cons v vs IH =>
      intro rest hd hw
      have hd1 : cvDepth v ≤ f := by
        simp only [cvListDepth] at hd
        omega
      have hd2 : cvListDepth vs ≤ f := by
        simp only [cvListDepth] at hd
        omega
      have hw' : wfCV v = true ∧ wfCVList vs = true := by
        simpa [wfCVList, Bool.and_eq_true] using hw
      simp only [encodeList, List.length_cons, decodeN, List.append_assoc]
      rw [H v _ hd1 hw'.1]
      simp only [Option.some_bind]
      rw [IH _ hd2 hw'.2]
      rfl

theorem decodeKVs_encodePairs (f : Nat) (dec : List Nat → Option (CV × List Nat))
    (H : ∀ v rest, cvDepth v ≤ f → wfCV v = true → dec (encodeCV v ++ rest) = some (v, rest)) :
    ∀ (es : List (Int × CV)) (rest : List Nat), cvPairsDepth es ≤ f → wfCVPairs es = true →
      decodeKVs dec es.length (flattenPairs (encodePairs es) ++ rest) = some (es, rest) := by
  intro es
  induction es with
  | nil =>
      intro rest _ _
      simp [encodePairs, flattenPairs, decodeKVs]
  | cons kv es IH =>
      obtain ⟨k, v⟩ := kv
      intro rest hd hw
      have hd1 : cvDepth v ≤ f := by
        simp only [cvPairsDepth] at hd
        omega
      have hd2 : cvPairsDepth es ≤ f := by
        simp only [cvPairsDepth] at hd
        omega
      have hf1 : 1 ≤ f := le_trans (cvDepth_pos v) hd1
      have hw' : wfInt k = true ∧ wfCV v = true ∧ wfCVPairs es = true := by
        simpa [wfCVPairs, Bool.and_eq_true, and_assoc] using hw
      have hwk : wfCV (.int k) = true := by simpa [wfCV] using hw'.1
      have hdk : cvDepth (.int k) ≤ f := by simpa [cvDepth] using hf1
      have hfc : flattenPairs (encodePairs ((k, v) :: es)) =
          encIntKey k ++ (encodeCV v ++ flattenPairs (encodePairs es)) := by
        simp [flattenPairs, encodePairs]
      simp only [List.length_cons, decodeKVs]
      rw [hfc]
      simp only [List.append_assoc]
      have hk := H (.int k) (encodeCV v ++ (flattenPairs (encodePairs es) ++ rest)) hdk hwk
      rw [show encIntKey k = encodeCV (.int k) from rfl, hk]
      simp only [Option.some_bind]
      rw [H v _ hd1 hw'.2.1]
      simp only [Option.some_bind]
      rw [IH rest hd2 hw'.2.2]
      rfl

theorem takeDrop_append (bs rest : List Nat) :
    takeDrop bs.length (bs ++ rest) = some (bs, rest) := by
  unfold takeDrop
  rw [if_pos (by simp)]
  rw [List.take_left, List.drop_left]

theorem decodeCV_encodeCV :
    ∀ (f : Nat) (v : CV) (rest : List Nat), cvDepth v ≤ f → wfCV v = true →
      decodeCV f (encodeCV v ++ rest) = some (v, rest) := by
  intro f
  induction f with
  | zero =>
      intro v rest hd _
      have := cvDepth_pos v
      omega
  | succ f IH =>
      intro v rest hd hw
      rw [decodeCV_succ]
      cases v with
      | int n =>
          have hw' : (-18446744073709551616 : Int) ≤ n ∧ n < 18446744073709551616 := by
            simpa [wfCV, wfInt] using hw
          by_cases hn : (0 : Int) ≤ n
          · have henc : encodeCV (.int n) ++ rest = encHead 0 n.toNat ++ rest := by
              simp [encodeCV, encIntKey, hn]
            obtain ⟨b, tail, heq, hdiv, harg⟩ := encHead_cons 0 n.toNat (by omega) rest
            rw [henc, heq]
            simp only [decodeStep]
            rw [harg]
            simp only [Option.some_bind, hdiv]
            simp [Int.toNat_of_nonneg hn]
          · have henc : encodeCV (.int n) ++ rest = encHead 1 (-(n + 1)).toNat ++ rest := by
              simp [encodeCV, encIntKey, hn]
            obtain ⟨b, tail, heq, hdiv, harg⟩ := encHead_cons 1 (-(n + 1)).toNat (by omega) rest
            rw [henc, heq]
            simp only [decodeStep]
            rw [harg]
            simp only [Option.some_bind, hdiv]
            simp only [show (1 : Nat) ≠ 0 from by omega, if_neg, if_pos, reduceIte]
            simp
            omega
      | bytes bs =>
          have hlen : bs.length < 18446744073709551616 := by simpa [wfCV] using hw
          obtain ⟨b, tail, heq, hdiv, harg⟩ := encHead_cons 2 bs.length hlen (bs ++ rest)
          have henc : encodeCV (.bytes bs) ++ rest = encHead 2 bs.length ++ (bs ++ rest) := by
            simp [encodeCV]
          rw [henc, heq]
          simp only [decodeStep]
          rw [harg]
          simp only [Option.some_bind, hdiv]
          simp [takeDrop_append]
      | byteArr bs =>
          simp [wfCV] at hw
      | text bs =>
          have hlen : bs.length < 18446744073709551616 := by simpa [wfCV] using hw
          obtain ⟨b, tail, heq, hdiv, harg⟩ := encHead_cons 3 bs.length hlen (bs ++ rest)
          have henc : encodeCV (.text bs) ++ rest = encHead 3 bs.length ++ (bs ++ rest) := by
            simp [encodeCV]
          rw [henc, heq]
          simp only [decodeStep]
          rw [harg]
          simp only [Option.some_bind, hdiv]
          simp [takeDrop_append]
      | arr vs =>
          have hw' : vs.length < 18446744073709551616 ∧ wfCVList vs = true := by
            simpa [wfCV, Bool.and_eq_true] using hw
          have hd' : cvListDepth vs ≤ f := by
            simp only [cvDepth] at hd
            omega
          obtain ⟨b, tail, heq, hdiv, harg⟩ :=
            encHead_cons 4 vs.length hw'.1 (encodeList vs ++ rest)
          have henc : encodeCV (.arr vs) ++ rest
              = encHead 4 vs.length ++ (encodeList vs ++ rest) := by
            simp [encodeCV]
          rw [henc, heq]
          simp only [decodeStep]
          rw [harg]
          simp only [Option.some_bind, hdiv]
          have hN := decodeN_encodeList f (decodeCV f)
            (fun w r hdw hww => IH w r hdw hww) vs rest hd' hw'.2
          simp [hN]
      | map es =>
          have hw' : es.length < 18446744073709551616 ∧ sortedKeys es = true ∧
              wfCVPairs es = true := by
            simpa [wfCV, Bool.and_eq_true, and_assoc] using hw
          have hd' : cvPairsDepth es ≤ f := by
            simp only [cvDepth] at hd
            omega
          have henc : encodeCV (.map es) ++ rest
              = encHead 5 es.length ++ (flattenPairs (encodePairs es) ++ rest) := by
            simp [encodeCV, insertionSort_sortedKeys es hw'.2.1]
          obtain ⟨b, tail, heq, hdiv, harg⟩ :=
            encHead_cons 5 es.length hw'.1 (flattenPairs (encodePairs es) ++ rest)
          rw [henc, heq]
          simp only [decodeStep]
          rw [harg]
          simp only [Option.some_bind, hdiv]
          have hK := decodeKVs_encodePairs f (decodeCV f)
            (fun w r hdw hww => IH w r hdw hww) es rest hd' hw'.2.2
          simp [hK]
      | tagged t v =>
          have hw' : t < 18446744073709551616 ∧ wfCV v = true := by
            simpa [wfCV, Bool.and_eq_true] using hw
          have hd' : cvDepth v ≤ f := by
            simp only [cvDepth] at hd
            omega
          obtain ⟨b, tail, heq, hdiv, harg⟩ := encHead_cons 6 t hw'.1 (encodeCV v ++ rest)
          have henc : encodeCV (.tagged t v) ++ rest
              = encHead 6 t ++ (encodeCV v ++ rest) := by
            simp [encodeCV]
          rw [henc, heq]
          simp only [decodeStep]
          rw [harg]
          simp only [Option.some_bind, hdiv]
          have hv := IH v rest hd' hw'.2
          simp [hv]
      | boolv b =>
          cases b <;> rfl
      | nullv =>
          rfl

theorem encHead_length_pos (maj n : Nat) : 1 ≤ (encHead maj n).length := by
  unfold encHead
  split_ifs <;> simp [beBytes]

theorem encIntKey_length_pos (n : Int) : 1 ≤ (encIntKey n).length := by
  unfold encIntKey
  split_ifs <;> exact encHead_length_pos _ _

theorem flattenPairs_length_perm (l1 l2 : List (Int × List Nat)) (h : l1.Perm l2) :
    (flattenPairs l1).length = (flattenPairs l2).length := by
  unfold flattenPairs
  rw [List.length_flatMap, List.length_flatMap]
  exact (h.map _).sum_eq

mutual

theorem cvDepth_le_encLength : ∀ v : CV, cvDepth v ≤ (encodeCV v).length
  | .int n => by
      simpa [cvDepth, encodeCV] using encIntKey_length_pos n
  | .bytes bs => by
      have := encHead_length_pos 2 bs.length
      simp only [cvDepth, encodeCV, List.length_append]
      omega
  | .byteArr bs => by
      have := encHead_length_pos 2 bs.length
      simp only [cvDepth, encodeCV, List.length_append]
      omega
  | .text bs => by
      have := encHead_length_pos 3 bs.length
      simp only [cvDepth, encodeCV, List.length_append]
      omega
  | .arr vs => by
      have h := cvListDepth_le_encLength vs
      have := encHead_length_pos 4 vs.length
      simp only [cvDepth, encodeCV, List.length_append]
      omega
  | .map es => by
      have h := cvPairsDepth_le_encLength es
      have h2 := flattenPairs_length_perm _ _
        (List.perm_insertionSort pairLe (encodePairs es))
      have := encHead_length_pos 5 es.length
      simp only [cvDepth, encodeCV, List.length_append]
      omega
  | .tagged t v => by
      have h := cvDepth_le_encLength v
      have := encHead_length_pos 6 t
      simp only [cvDepth, encodeCV, List.length_append]
      omega
  | .boolv b => by
      cases b <;> simp [cvDepth, encodeCV]
  | .nullv => by
      simp [cvDepth, encodeCV]

theorem cvListDepth_le_encLength : ∀ vs : List CV, cvListDepth vs ≤ (encodeList vs).length
  | [] => by
      simp [cvListDepth, encodeList]
  | v :: vs => by
      have h1 := cvDepth_le_encLength v
      have h2 := cvListDepth_le_encLength vs
      simp only [cvListDepth, encodeList, List.length_append]
      omega

theorem cvPairsDepth_le_encLength :
    ∀ es : List (Int × CV), cvPairsDepth es ≤ (flattenPairs (encodePairs es)).length
  | [] => by
      simp [cvPairsDepth, encodePairs, flattenPairs]
  | (k, v) :: es => by
      have h1 := cvDepth_le_encLength v
      have h2 := cvPairsDepth_le_encLength es
      have hfc : flattenPairs (encodePairs ((k, v) :: es)) =
          encIntKey k ++ (encodeCV v ++ flattenPairs (encodePairs es)) := by
        simp [flattenPairs, encodePairs]
      rw [hfc]
      simp only [cvPairsDepth, List.length_append]
      omega

end

/-- The IntMap container: a mapping from signed integer parameter numbers
to values, modelled as an association list with pairwise distinct keys
(Go maps are unordered; the canonical representative keeps the keys in
canonical CBOR order). -/
abbrev IntMap := List (Int × CV)

/-- Go map lookup. -/
def lookupIM (m : IntMap) (k : Int) : Option CV :=
  match m with
  | [] => none
  | (j, v) :: tl => if j = k then some v else lookupIM tl k

/-- IntMap.Has from key/intmap.go. -/
def IntMap.Has (m : IntMap) (p : Int) : Bool :=
  (lookupIM m p).isSome

/-- Modelled from the spec: IntMap.GetInt (key/intmap.go is not in the
snapshot; only its test is).  Per spec section 4.1 an integer succeeds if
it fits the target width, a missing key yields the zero value with no
error, and anything else is a type mismatch.  The repository test
TestIntMap requires GetInt to fail on i64.max while GetInt64 succeeds, so
the target width of GetInt is 32 bits. -/
def IntMap.GetInt (m : IntMap) (p : Int) : Except String Int :=
  match lookupIM m p with
  | none => .ok 0
  | some (.int n) =>
      if -2147483648 ≤ n ∧ n < 2147483648 then .ok n
      else .error "cose/key: IntMap.GetInt: overflow"
  | some _ => .error "cose/key: IntMap.GetInt: type mismatch"

/-- Modelled from the spec: IntMap.GetInt64; target width 64 bits. -/
def IntMap.GetInt64 (m : IntMap) (p : Int) : Except String Int :=
  match lookupIM m p with
  | none => .ok 0
  | some (.int n) =>
      if -9223372036854775808 ≤ n ∧ n < 9223372036854775808 then .ok n
      else .error "cose/key: IntMap.GetInt64: overflow"
  | some _ => .error "cose/key: IntMap.GetInt64: type mismatch"

/-- Modelled from the spec: IntMap.GetUint64; negative values fail with a
sign error, the unsigned 64-bit range succeeds. -/
def IntMap.GetUint64 (m : IntMap) (p : Int) : Except String Int :=
  match lookupIM m p with
  | none => .ok 0
  | some (.int n) =>
      if 0 ≤ n ∧ n < 18446744073709551616 then .ok n
      else .error "cose/key: IntMap.GetUint64: overflow"
  | some _ => .error "cose/key: IntMap.GetUint64: type mismatch"

/-- Modelled from the spec: IntMap.GetBytes.  A byte string succeeds, a
missing key yields nil bytes with no error; per TestIntMap a fixed-size
byte array, an integer, a text string or an array all fail with a type
mismatch. -/
def IntMap.GetBytes (m : IntMap) (p : Int) : Except String (List Nat) :=
  match lookupIM m p with
  | none => .ok []
  | some (.bytes bs) => .ok bs
  | some _ => .error "cose/key: IntMap.GetBytes: type mismatch"

/-- Modelled from the spec: IntMap.GetString.  Only a text string
succeeds; a missing key yields the empty string with no error. -/
def IntMap.GetString (m : IntMap) (p : Int) : Except String (List Nat) :=
  match lookupIM m p with
  | none => .ok []
  | some (.text bs) => .ok bs
  | some _ => .error "cose/key: IntMap.GetString: type mismatch"

/-- Modelled from the spec: IntMap.GetBool.  Only a boolean succeeds; a
missing key yields false with no error. -/
def IntMap.GetBool (m : IntMap) (p : Int) : Except String Bool :=
  match lookupIM m p with
  | none => .ok false
  | some (.boolv b) => .ok b
  | some _ => .error "cose/key: IntMap.GetBool: type mismatch"

/-- Modelled from the spec: IntMap.MarshalCBOR emits the map with the
deterministic CBOR encoding (the library delegates to its CBOR dependency
configured for canonical output). -/
def IntMap.MarshalCBOR (m : IntMap) : List Nat :=
  encodeCV (.map m)

/-- Header parameter numbers and tag numbers from the iana package. -/
def HeaderParameterAlg : Int := 1

def HeaderParameterKid : Int := 4

def AlgorithmReserved : Int := 0

def CBORTagCWT : Nat := 61

def CBORTagCOSEMac0 : Nat := 17

/-- The alg read that Compute and Verify perform on the protected headers:
GetInt with the error discarded, exactly as the source does with
alg, _ := m.Protected.GetInt(iana.HeaderParameterAlg). -/
def algOf (h : IntMap) : Int :=
  match IntMap.GetInt h HeaderParameterAlg with
  | .ok n => n
  | .error _ => 0

/-- A MACer capability (key.MACer): its key's algorithm and key id, and
the tag creating and verifying operations. -/
structure MACer where
  keyAlg : Int
  keyKid : List Nat
  MACCreate : List Nat → Except String (List Nat)
  MACVerify : List Nat → List Nat → Except String Unit

/-- The wire-level mac0Message struct from cose/mac0.go: the CBOR array
[protected byte string, unprotected map, payload, tag], cbor toarray.
The Tag field is an optional byte string, none standing for a Go nil
slice. -/
structure Mac0Inner where
  Protected : List Nat
  Unprotected : IntMap
  Payload : List Nat
  Tag : Option (List Nat)

/-- MAC_structure bytes (mm.toMac in the source): the CBOR array
[context "MAC0", body_protected, external_aad, payload]; a nil
externalData becomes the empty byte string. -/
def mac0ToMac (mm : Mac0Inner) (externalData : List Nat) : List Nat :=
  encodeCV (.arr [.text [77, 65, 67, 48], .bytes mm.Protected,
    .bytes externalData, .bytes mm.Payload])

/-- Modelled from the spec: Headers.Bytes (cose/headers.go is not in the
snapshot).  The canonical protected-bucket encoding: the empty byte string
for an empty map, otherwise the encoding of the map (spec section 4.3). -/
def headersBytes (h : IntMap) : List Nat :=
  if h.isEmpty then [] else encodeCV (.map h)

/-- Modelled from the spec: HeadersFromBytes; the empty byte string decodes
to the empty header map, otherwise the bytes must decode as a full CBOR
map. -/
def headersFromBytes (bs : List Nat) : Except String IntMap :=
  if bs = [] then .ok []
  else
    match decodeCV (bs.length + 1) bs with
    | some (.map es, []) => .ok es
    | _ => .error "cose/cose: HeadersFromBytes: invalid CBOR data"

/-- How a Mac0Message payload of type T is serialized: Go pass-through
for byte-slice and raw-CBOR payloads, the CBOR codec otherwise; dflt is
the Go zero value left in place when the wire payload is empty. -/
structure PayloadCodec (T : Type) where
  enc : T → List Nat
  dec : List Nat → Except String T
  dflt : T

/-- The byte-slice payload instantiation ([]byte pass-through). -/
def bytesCodec : PayloadCodec (List Nat) where
  enc := id
  dec := .ok
  dflt := []

/-- Mac0Message from cose/mac0.go.  Protected and Unprotected are nil-able
Go maps; mm is the decoded or computed mac0Message, nil until Compute or
UnmarshalCBOR succeeds; toMac caches the MAC_structure bytes. -/
structure Mac0Message (T : Type) where
  Protected : Option IntMap
  Unprotected : Option IntMap
  Payload : T
  mm : Option Mac0Inner
  toMac : List Nat

/-- The alg-mismatch test at the head of Compute: a non-nil protected map
that holds an alg different from the key's alg. -/
def computeMismatch (p? : Option IntMap) (macer : MACer) : Bool :=
  match p? with
  | none => false
  | some p => IntMap.Has p HeaderParameterAlg && decide (algOf p ≠ macer.keyAlg)

/-- The protected map after Compute: created, with the key's alg inserted
when not Reserved, only when the map was nil; otherwise left as is. -/
def computeProt (p? : Option IntMap) (macer : MACer) : IntMap :=
  match p? with
  | none =>
      if macer.keyAlg ≠ AlgorithmReserved then [(HeaderParameterAlg, CV.int macer.keyAlg)]
      else []
  | some p => p

/-- The unprotected map after Compute: created, with the key's kid inserted
when non-empty, only when the map was nil; otherwise left as is. -/
def computeUnprot (u? : Option IntMap) (macer : MACer) : IntMap :=
  match u? with
  | none =>
      if macer.keyKid ≠ [] then [(HeaderParameterKid, CV.bytes macer.keyKid)]
      else []
  | some u => u

/-- Mac0Message.Compute.  The Go method mutates its receiver and returns
an error; the model returns the updated receiver paired with the optional
error.  On the alg-mismatch path nothing is mutated; on a MACCreate error
the headers and toMac are updated but mm is left unchanged. -/
def Mac0Message.Compute {T : Type} (codec : PayloadCodec T) (m : Mac0Message T)
    (macer : MACer) (externalData : List Nat) : Mac0Message T × Option String :=
  if computeMismatch m.Protected macer then
    (m, some "cose/cose: Mac0Message.Compute: macer alg mismatch")
  else
    let prot := computeProt m.Protected macer
    let unprot := computeUnprot m.Unprotected macer
    let mm0 : Mac0Inner :=
      { Protected := headersBytes prot, Unprotected := unprot,
        Payload := codec.enc m.Payload, Tag := none }
    let tm := mac0ToMac mm0 externalData
    match macer.MACCreate tm with
    | .ok tg =>
        ({ m with
            Protected := some prot
            Unprotected := some unprot
            toMac := tm
            mm := some ({ mm0 with Tag := some tg }) }, none)
    | .error e =>
        ({ m with
            Protected := some prot
            Unprotected := some unprot
            toMac := tm }, some e)

/-- The mac0Message array as a CBOR item: [protected, unprotected,
payload, tag]. -/
def mac0InnerArr (mm : Mac0Inner) (tg : List Nat) : CV :=
  .arr [.bytes mm.Protected, .map mm.Unprotected, .bytes mm.Payload, .bytes tg]

/-- Mac0Message.MarshalCBOR: fails with the precondition error until a MAC
has been computed or decoded; then it emits the mac0Message array wrapped
in the COSE_Mac0 tag nested inside the CWT tag, for every payload type. -/
def Mac0Message.MarshalCBOR {T : Type} (m : Mac0Message T) : Except String (List Nat) :=
  match m.mm with
  | none => .error "cose/cose: Mac0Message.MarshalCBOR: should call Mac0Message.Compute"
  | some mm =>
      match mm.Tag with
      | none => .error "cose/cose: Mac0Message.MarshalCBOR: should call Mac0Message.Compute"
      | some tg =>
          .ok (encodeCV (.tagged CBORTagCWT (.tagged CBORTagCOSEMac0 (mac0InnerArr mm tg))))

/-- Mac0Message.ComputeAndEncode; the pair records the receiver's state
after the successful Compute, which the Go caller observes through the
mutated receiver. -/
def Mac0Message.ComputeAndEncode {T : Type} (codec : PayloadCodec T) (m : Mac0Message T)
    (macer : MACer) (externalData : List Nat) :
    Except String (List Nat × Mac0Message T) :=
  let r := Mac0Message.Compute codec m macer externalData
  match r.2 with
  | some e => .error e
  | none =>
      match Mac0Message.MarshalCBOR r.1 with
      | .ok bs => .ok (bs, r.1)
      | .error e => .error e

/-- Strips the two CWT-tag bytes 0xd8 0x3d when present (the cwtPrefix
check in UnmarshalCBOR; tag 61 encodes as those two bytes). -/
def stripCWTTag (d : List Nat) : List Nat :=
  match d with
  | b :: c :: r => if b = 216 ∧ c = 61 then r else d
  | _ => d

/-- Strips the COSE_Mac0 tag byte 0xd1 when present (tag 17 encodes as a
single byte). -/
def stripMac0Tag (d : List Nat) : List Nat :=
  match d with
  | b :: r => if b = 209 then r else d
  | _ => d

/-- Decoding of the protected or payload field of the array: a byte
string, or null standing for a nil Go slice. -/
def asBytesField : CV → Except String (List Nat)
  | .bytes bs => .ok bs
  | .nullv => .ok []
  | _ => .error "cose/cose: Mac0Message.UnmarshalCBOR: invalid CBOR data"

/-- Decoding of the unprotected field: a map, or null for a nil map. -/
def asMapField : CV → Except String IntMap
  | .map es => .ok es
  | .nullv => .ok []
  | _ => .error "cose/cose: Mac0Message.UnmarshalCBOR: invalid CBOR data"

/-- Decoding of the tag field, keeping the nil and present cases apart. -/
def asTagField : CV → Except String (Option (List Nat))
  | .bytes bs => .ok (some bs)
  | .nullv => .ok none
  | _ => .error "cose/cose: Mac0Message.UnmarshalCBOR: invalid CBOR data"

/-- The tag-stripped body of UnmarshalCBOR: decodes the four-element
array in full, rebuilds the protected headers from their bytes, and
decodes the payload only when it is non-empty. -/
def unmarshalMac0Core {T : Type} (codec : PayloadCodec T) (d2 : List Nat) :
    Except String (Mac0Message T) :=
  match decodeCV (d2.length + 1) d2 with
  | some (.arr [pv, uv, plv, tv], []) => do
      let pb ← asBytesField pv
      let unp ← asMapField uv
      let pay ← asBytesField plv
      let tg ← asTagField tv
      let ph ← headersFromBytes pb
      let payload ← if pay.length > 0 then codec.dec pay else .ok codec.dflt
      .ok ⟨some ph, some unp, payload, some ⟨pb, unp, pay, tg⟩, []⟩
  | _ => .error "cose/cose: Mac0Message.UnmarshalCBOR: invalid CBOR data"

/-- Mac0Message.UnmarshalCBOR: strips an optional leading CWT tag, then an
optional COSE_Mac0 tag, and decodes the remainder. -/
def Mac0Message.UnmarshalCBOR {T : Type} (codec : PayloadCodec T) (data : List Nat) :
    Except String (Mac0Message T) :=
  unmarshalMac0Core codec (stripMac0Tag (stripCWTTag data))

/-- Mac0Message.Verify: fails with the precondition error until
UnmarshalCBOR installed the decoded message; then checks the protected alg
against the MACer key and delegates to MACVerify over the rebuilt
MAC_structure. -/
def Mac0Message.Verify {T : Type} (m : Mac0Message T) (macer : MACer)
    (externalData : List Nat) : Except String Unit :=
  match m.mm with
  | none => .error "cose/cose: Mac0Message.Verify: should call Mac0Message.UnmarshalCBOR"
  | some mm =>
      match mm.Tag with
      | none => .error "cose/cose: Mac0Message.Verify: should call Mac0Message.UnmarshalCBOR"
      | some tg =>
          let p := m.Protected.getD []
          if IntMap.Has p HeaderParameterAlg && decide (algOf p ≠ macer.keyAlg) then
            .error "cose/cose: Mac0Message.Verify: macer alg mismatch"
          else macer.MACVerify (mac0ToMac mm externalData) tg

/-- VerifyMac0Message: decode, then verify, returning the decoded
message. -/
def VerifyMac0Message {T : Type} (codec : PayloadCodec T) (macer : MACer)
    (coseData externalData : List Nat) : Except String (Mac0Message T) :=
  match Mac0Message.UnmarshalCBOR codec coseData with
  | .error e => .error e
  | .ok m =>
      match Mac0Message.Verify m macer externalData with
      | .error e => .error e
      | .ok _ => .ok m

/-- Mac0Message.Tag: the MAC tag, nil while no MAC has been computed or
decoded. -/
def Mac0Message.Tag {T : Type} (m : Mac0Message T) : Option (List Nat) :=
  match m.mm with
  | none => none
  | some mm => mm.Tag

/-- A Verifier capability (key.Verifier): the key's algorithm and the
signature-checking operation. -/
structure Verifier where
  keyAlg : Int
  verifySig : List Nat → List Nat → Except String Unit

/-- Modelled from the spec: the wire-level sign1Message struct
(cose/sign1.go is not in the snapshot; its tests are): the CBOR array
[protected byte string, unprotected map, payload, signature]. -/
structure Sign1Inner where
  Protected : List Nat
  Unprotected : IntMap
  Payload : List Nat
  Signature : Option (List Nat)

/-- Modelled from the spec: Sign1Message with its order-of-use gate.  The
internal sign1Message sm is nil until WithSign or UnmarshalCBOR installs
it, exactly as mm is for Mac0Message. -/
structure Sign1Message (T : Type) where
  Protected : Option IntMap
  Unprotected : Option IntMap
  Payload : T
  sm : Option Sign1Inner

/-- Modelled from the spec: Sig_structure bytes for Sign1, the CBOR array
[context "Signature1", body_protected, external_aad, payload]. -/
def sign1ToSign (sm : Sign1Inner) (externalData : List Nat) : List Nat :=
  encodeCV (.arr [.text [83, 105, 103, 110, 97, 116, 117, 114, 101, 49],
    .bytes sm.Protected, .bytes externalData, .bytes sm.Payload])

/-- Modelled from the spec: Sign1Message.MarshalCBOR fails with the
precondition error until WithSign installed the signed message (error
string pinned by TestSign1EdgeCase); afterwards it emits the array under
the COSE_Sign1 tag 18 alone, with no CWT wrap, as the sign-pass outputs
of TestSign1 pin (they begin with the single tag byte 0xd2). -/
def Sign1Message.MarshalCBOR {T : Type} (m : Sign1Message T) : Except String (List Nat) :=
  match m.sm with
  | none => .error "cose/cose: Sign1Message.MarshalCBOR: should call Sign1Message.WithSign"
  | some sm =>
      match sm.Signature with
      | none => .error "cose/cose: Sign1Message.MarshalCBOR: should call Sign1Message.WithSign"
      | some sig =>
          .ok (encodeCV (.tagged 18
            (.arr [.bytes sm.Protected, .map sm.Unprotected, .bytes sm.Payload, .bytes sig])))

/-- Modelled from the spec: Sign1Message.Verify fails with the
precondition error until UnmarshalCBOR installed the decoded message
(error string pinned by TestSign1EdgeCase); afterwards it delegates to the
verifier over the rebuilt Sig_structure. -/
def Sign1Message.Verify {T : Type} (m : Sign1Message T) (verifier : Verifier)
    (externalData : List Nat) : Except String Unit :=
  match m.sm with
  | none => .error "cose/cose: Sign1Message.Verify: should call Sign1Message.UnmarshalCBOR"
  | some sm =>
      match sm.Signature with
      | none => .error "cose/cose: Sign1Message.Verify: should call Sign1Message.UnmarshalCBOR"
      | some sig =>
          verifier.verifySig (sign1ToSign sm externalData) sig

/-- The IntMap literal of TestIntMap (key/intmap_test.go); hello is the
byte sequence 68 65 6c 6c 6f.  Key 12 holds the Go fixed-size array
[4]byte of 01 02 03 04. -/
def testIntMap : IntMap :=
  [(1, .int 1), (2, .int 2), (3, .int 3),
   (-1, .int (-1)), (-2, .int (-2)), (-3, .int (-3)),
   (0, .int 9223372036854775807),
   (10, .bytes [1, 2, 3, 4]), (11, .bytes [1, 2, 3, 4]), (12, .byteArr [1, 2, 3, 4]),
   (13, .text [104, 101, 108, 108, 111]),
   (14, .arr [.text [104, 101, 108, 108, 111]]),
   (15, .text [104, 101, 108, 108, 111])]

/-- The expected deterministic encoding from TestIntMap, the byte list of
ad001b7fffffffffffffff0101020203030a44010203040b44010203040c4401020304
0d6568656c6c6f0e816568656c6c6f0f6568656c6c6f202021212222. -/
def testIntMapBytes : List Nat :=
  [173, 0, 27, 127, 255, 255, 255, 255, 255, 255, 255, 1, 1, 2, 2, 3, 3,
   10, 68, 1, 2, 3, 4, 11, 68, 1, 2, 3, 4, 12, 68, 1, 2, 3, 4,
   13, 101, 104, 101, 108, 108, 111, 14, 129, 101, 104, 101, 108, 108, 111,
   15, 101, 104, 101, 108, 108, 111, 32, 32, 33, 33, 34, 34]

/-- A concrete MACer for concrete instances: the tag is the first eight
bytes of the message, verification recomputes and compares (algorithm 5 is
HMAC 256/256, kid is the two bytes of the string 11). -/
def fixMacer : MACer where
  keyAlg := 5
  keyKid := [49, 49]
  MACCreate := fun msg => .ok (msg.take 8)
  MACVerify := fun msg tg =>
    if tg = msg.take 8 then .ok () else .error "cose/key: MACVerify: invalid MAC"

/-- A MACer whose MACCreate always fails. -/
def failMacer : MACer where
  keyAlg := 5
  keyKid := []
  MACCreate := fun _ => .error "cose/key: MACCreate: failure"
  MACVerify := fun _ _ => .error "cose/key: MACVerify: failure"

/-- A fresh Mac0Message with a plain byte-slice payload (not a CWT claim
set), nil headers, no MAC computed yet. -/
def fixMsg : Mac0Message (List Nat) where
  Protected := none
  Unprotected := none
  Payload := [1, 2, 3]
  mm := none
  toMac := []

/-- A fresh Mac0Message whose protected header map is non-nil but empty,
so it holds no alg entry. -/
def fixMsgEmptyProt : Mac0Message (List Nat) where
  Protected := some []
  Unprotected := none
  Payload := [1, 2, 3]
  mm := none
  toMac := []

/-- A fresh Sign1Message, no signature computed yet. -/
def fixSign1 : Sign1Message (List Nat) where
  Protected := none
  Unprotected := none
  Payload := [1, 2, 3]
  sm := none

/-- A concrete Verifier. -/
def fixVerifier : Verifier where
  keyAlg := -8
  verifySig := fun _ _ => .ok ()

/-- C2: for every IntMap the CBOR marshalling emits the entries sorted in
the canonical deterministic order (non-negative keys ascending, then
negative keys ascending by absolute magnitude), and the TestIntMap fixture
encodes to exactly the bytes the test demands, with the positive keys
ascending and the negative keys -1, -2, -3 as 0x20, 0x21, 0x22 at the
end. -/
theorem C2_marshal_canonical_order :
    (∀ es : IntMap, List.Pairwise (fun a b : Int => keyLeB a b = true)
        ((List.insertionSort pairLe (encodePairs es)).map Prod.fst)) ∧
      IntMap.MarshalCBOR testIntMap = testIntMapBytes := by
  constructor
  · intro es
    have hs : List.Sorted pairLe (List.insertionSort pairLe (encodePairs es)) :=
      List.sorted_insertionSort pairLe (encodePairs es)
    exact List.pairwise_map.mpr hs
  · rfl

/-- C6 counterexample: in the TestIntMap fixture key 0 holds i64.max, yet
GetInt fails with an overflow error instead of succeeding (the test
asserts this failure), refuting the claim that GetInt succeeds on i64.max
when the platform int is 64 bits wide. -/
theorem C6_counterexample :
    lookupIM testIntMap 0 = some (.int 9223372036854775807) ∧
      IntMap.GetInt testIntMap 0 = .error "cose/key: IntMap.GetInt: overflow" :=
  ⟨rfl, rfl⟩

/-- C6 (amended): GetInt succeeds and returns the stored non-negative
integer when it fits the 32-bit target width of GetInt; on i64.max GetInt
fails with an overflow error even though the platform int is 64 bits,
while GetInt64 does succeed on that value. -/
theorem C6_getint_target_width :
    (∀ (m : IntMap) (p n : Int), lookupIM m p = some (.int n) →
        0 ≤ n → n < 2147483648 → IntMap.GetInt m p = .ok n) ∧
      IntMap.GetInt64 testIntMap 0 = .ok 9223372036854775807 ∧
      (IntMap.GetInt testIntMap 0).isOk = false := by
  refine ⟨?_, rfl, rfl⟩
  intro m p n hl h1 h2
  simp only [IntMap.GetInt, hl]
  rw [if_pos ⟨by omega, h2⟩]

theorem C6_getint_target_width_witness : IntMap.GetInt testIntMap 1 = .ok 1 :=
  C6_getint_target_width.1 testIntMap 1 1 rfl (by decide) (by decide)

/-- C7 counterexample: in the TestIntMap fixture key 12 holds a Go
fixed-size byte array, and GetBytes fails with a type mismatch (as the
test asserts) instead of succeeding, refuting the claim that GetBytes
succeeds on a fixed-size byte array. -/
theorem C7_counterexample :
    lookupIM testIntMap 12 = some (.byteArr [1, 2, 3, 4]) ∧
      IntMap.GetBytes testIntMap 12 = .error "cose/key: IntMap.GetBytes: type mismatch" :=
  ⟨rfl, rfl⟩

/-- C7 (amended): GetBytes succeeds exactly on byte-string values; it
fails with a type-mismatch error when the stored value is a fixed-size
byte array, an integer, a text string, or an array of strings (TestIntMap
keys 12, 1, 13, 14). -/
theorem C7_getbytes_byte_strings :
    (∀ (m : IntMap) (p : Int) (bs : List Nat), lookupIM m p = some (.bytes bs) →
        IntMap.GetBytes m p = .ok bs) ∧
      IntMap.GetBytes testIntMap 10 = .ok [1, 2, 3, 4] ∧
      IntMap.GetBytes testIntMap 11 = .ok [1, 2, 3, 4] ∧
      IntMap.GetBytes testIntMap 12 = .error "cose/key: IntMap.GetBytes: type mismatch" ∧
      IntMap.GetBytes testIntMap 1 = .error "cose/key: IntMap.GetBytes: type mismatch" ∧
      IntMap.GetBytes testIntMap 13 = .error "cose/key: IntMap.GetBytes: type mismatch" ∧
      IntMap.GetBytes testIntMap 14 = .error "cose/key: IntMap.GetBytes: type mismatch" := by
  refine ⟨?_, rfl, rfl, rfl, rfl, rfl, rfl⟩
  intro m p bs hl
  simp [IntMap.GetBytes, hl]

theorem C7_getbytes_byte_strings_witness : IntMap.GetBytes testIntMap 10 = .ok [1, 2, 3, 4] :=
  C7_getbytes_byte_strings.1 testIntMap 10 [1, 2, 3, 4] rfl

/-- C8: a key that is absent from the map makes every typed accessor
return the zero value of the requested shape and no error: 0 for the
integer accessors, nil bytes, the empty string, and false. -/
theorem C8_missing_key_zero_value :
    ∀ (m : IntMap) (p : Int), lookupIM m p = none →
      IntMap.GetInt m p = .ok 0 ∧ IntMap.GetInt64 m p = .ok 0 ∧
      IntMap.GetUint64 m p = .ok 0 ∧ IntMap.GetBytes m p = .ok [] ∧
      IntMap.GetString m p = .ok [] ∧ IntMap.GetBool m p = .ok false := by
  intro m p h
  exact ⟨by simp [IntMap.GetInt, h], by simp [IntMap.GetInt64, h],
    by simp [IntMap.GetUint64, h], by simp [IntMap.GetBytes, h],
    by simp [IntMap.GetString, h], by simp [IntMap.GetBool, h]⟩

theorem C8_missing_key_zero_value_witness :
    IntMap.GetInt testIntMap (-10) = .ok 0 ∧ IntMap.GetInt64 testIntMap (-10) = .ok 0 ∧
      IntMap.GetUint64 testIntMap (-10) = .ok 0 ∧ IntMap.GetBytes testIntMap (-10) = .ok [] ∧
      IntMap.GetString testIntMap (-10) = .ok [] ∧ IntMap.GetBool testIntMap (-10) = .ok false :=
  C8_missing_key_zero_value testIntMap (-10) rfl

theorem compute_mismatch_spec {T : Type} (codec : PayloadCodec T) (m : Mac0Message T)
    (macer : MACer) (ext : List Nat) (h : computeMismatch m.Protected macer = true) :
    Mac0Message.Compute codec m macer ext =
      (m, some "cose/cose: Mac0Message.Compute: macer alg mismatch") := by
  unfold Mac0Message.Compute
  rw [if_pos h]

theorem compute_prot_spec {T : Type} (codec : PayloadCodec T) (m : Mac0Message T)
    (macer : MACer) (ext : List Nat) (h : computeMismatch m.Protected macer = false) :
    (Mac0Message.Compute codec m macer ext).1.Protected =
      some (computeProt m.Protected macer) := by
  unfold Mac0Message.Compute
  rw [if_neg (by simp [h])]
  dsimp only
  split <;> rfl

theorem compute_mm_unchanged_on_error {T : Type} (codec : PayloadCodec T)
    (m : Mac0Message T) (macer : MACer) (ext : List Nat) :
    (Mac0Message.Compute codec m macer ext).2 = none ∨
      (Mac0Message.Compute codec m macer ext).1.mm = m.mm := by
  unfold Mac0Message.Compute
  split
  · right; rfl
  · dsimp only
    split
    · left; rfl
    · right; rfl

/-- C9: out-of-order API use fails with the precondition error and yields
no bytes, for every message, payload type and crypto capability: on a
Mac0Message whose internal message is nil, MarshalCBOR fails and Verify
fails without depending on the MACer; likewise for Sign1Message before
WithSign and before UnmarshalCBOR. -/
theorem C9_precondition_gate :
    (∀ (T : Type) (m : Mac0Message T), m.mm = none →
        Mac0Message.MarshalCBOR m =
          .error "cose/cose: Mac0Message.MarshalCBOR: should call Mac0Message.Compute") ∧
      (∀ (T : Type) (m : Mac0Message T) (macer : MACer) (ext : List Nat), m.mm = none →
        Mac0Message.Verify m macer ext =
          .error "cose/cose: Mac0Message.Verify: should call Mac0Message.UnmarshalCBOR") ∧
      (∀ (T : Type) (m : Sign1Message T), m.sm = none →
        Sign1Message.MarshalCBOR m =
          .error "cose/cose: Sign1Message.MarshalCBOR: should call Sign1Message.WithSign") ∧
      (∀ (T : Type) (m : Sign1Message T) (v : Verifier) (ext : List Nat), m.sm = none →
        Sign1Message.Verify m v ext =
          .error "cose/cose: Sign1Message.Verify: should call Sign1Message.UnmarshalCBOR") := by
  refine ⟨?_, ?_, ?_, ?_⟩
  · intro T m h
    simp [Mac0Message.MarshalCBOR, h]
  · intro T m macer ext h
    simp [Mac0Message.Verify, h]
  · intro T m h
    simp [Sign1Message.MarshalCBOR, h]
  · intro T m v ext h
    simp [Sign1Message.Verify, h]

theorem C9_precondition_gate_witness :
    Mac0Message.MarshalCBOR fixMsg =
      .error "cose/cose: Mac0Message.MarshalCBOR: should call Mac0Message.Compute" ∧
    Mac0Message.Verify fixMsg fixMacer [] =
      .error "cose/cose: Mac0Message.Verify: should call Mac0Message.UnmarshalCBOR" ∧
    Sign1Message.MarshalCBOR fixSign1 =
      .error "cose/cose: Sign1Message.MarshalCBOR: should call Sign1Message.WithSign" ∧
    Sign1Message.Verify fixSign1 fixVerifier [] =
      .error "cose/cose: Sign1Message.Verify: should call Sign1Message.UnmarshalCBOR" :=
  ⟨C9_precondition_gate.1 (List Nat) fixMsg rfl,
   C9_precondition_gate.2.1 (List Nat) fixMsg fixMacer [] rfl,
   C9_precondition_gate.2.2.1 (List Nat) fixSign1 rfl,
   C9_precondition_gate.2.2.2 (List Nat) fixSign1 fixVerifier [] rfl⟩

/-- C10: whenever Compute returns an error (in particular when the MACer's
MACCreate fails), the internal mac0Message is left unchanged; on a message
that had no computed MAC, MarshalCBOR afterwards still fails with the
precondition error and Tag still returns nil. -/
theorem C10_compute_failure_atomic :
    ∀ (T : Type) (codec : PayloadCodec T) (m : Mac0Message T) (macer : MACer)
      (ext : List Nat) (e : String),
      (Mac0Message.Compute codec m macer ext).2 = some e →
      (Mac0Message.Compute codec m macer ext).1.mm = m.mm ∧
        (m.mm = none →
          Mac0Message.MarshalCBOR (Mac0Message.Compute codec m macer ext).1 =
            .error "cose/cose: Mac0Message.MarshalCBOR: should call Mac0Message.Compute" ∧
          Mac0Message.Tag (Mac0Message.Compute codec m macer ext).1 = none) := by
  intro T codec m macer ext e h
  have hmm : (Mac0Message.Compute codec m macer ext).1.mm = m.mm := by
    rcases compute_mm_unchanged_on_error codec m macer ext with h0 | h1
    · rw [h0] at h
      cases h
    · exact h1
  refine ⟨hmm, fun hn => ?_⟩
  have hmn : (Mac0Message.Compute codec m macer ext).1.mm = none := hmm.trans hn
  exact ⟨by simp [Mac0Message.MarshalCBOR, hmn], by simp [Mac0Message.Tag, hmn]⟩

theorem C10_compute_failure_atomic_witness :
    (Mac0Message.Compute bytesCodec fixMsg failMacer []).1.mm = fixMsg.mm ∧
      (fixMsg.mm = none →
        Mac0Message.MarshalCBOR (Mac0Message.Compute bytesCodec fixMsg failMacer []).1 =
          .error "cose/cose: Mac0Message.MarshalCBOR: should call Mac0Message.Compute" ∧
        Mac0Message.Tag (Mac0Message.Compute bytesCodec fixMsg failMacer []).1 = none) :=
  C10_compute_failure_atomic (List Nat) bytesCodec fixMsg failMacer []
    "cose/key: MACCreate: failure" rfl

theorem encode_cwt_mac0_tags (x : CV) :
    encodeCV (.tagged CBORTagCWT (.tagged CBORTagCOSEMac0 x)) =
      216 :: 61 :: 209 :: encodeCV x := by
  simp [encodeCV, CBORTagCWT, CBORTagCOSEMac0, encHead, beBytes]

theorem mac0_marshal_spec {T : Type} (m : Mac0Message T) (mm : Mac0Inner) (tg : List Nat)
    (hmm : m.mm = some mm) (htg : mm.Tag = some tg) :
    Mac0Message.MarshalCBOR m = .ok (216 :: 61 :: 209 :: encodeCV (mac0InnerArr mm tg)) := by
  unfold Mac0Message.MarshalCBOR
  rw [hmm]
  simp only [htg, encode_cwt_mac0_tags]

/-- C1 counterexample: a Mac0Message whose payload is a plain byte slice
(payload type []byte, not a CWT claim set) is computed and encoded, and
the emitted bytes nevertheless begin with 0xd8 0x3d, the CWT tag 61,
followed by 0xd1, the COSE_Mac0 tag 17 — refuting the claim that a
non-CWT payload carries no CWT tag. -/
theorem C1_counterexample :
    (Mac0Message.ComputeAndEncode bytesCodec fixMsg fixMacer []).map Prod.fst =
      .ok (216 :: 61 :: [209, 132, 67, 161, 1, 5, 161, 4, 66, 49, 49, 67, 1, 2, 3,
        72, 132, 100, 77, 65, 67, 48, 67, 161]) := rfl

/-- C1 (amended): for every Mac0Message, of any payload type, on which the
authenticator has been computed, MarshalCBOR emits the CBOR array tagged
with the COSE_Mac0 tag 17 and always additionally wraps the result in the
CWT tag 61, whether or not the payload type is a CWT claim set. -/
theorem C1_marshal_always_cwt_wrapped {T : Type} (m : Mac0Message T) (mm : Mac0Inner)
    (tg : List Nat) (hmm : m.mm = some mm) (htg : mm.Tag = some tg) :
    Mac0Message.MarshalCBOR m = .ok (216 :: 61 :: 209 :: encodeCV (mac0InnerArr mm tg)) :=
  mac0_marshal_spec m mm tg hmm htg

theorem C1_marshal_always_cwt_wrapped_witness :
    Mac0Message.MarshalCBOR (Mac0Message.Compute bytesCodec fixMsg fixMacer []).1 =
      .ok (216 :: 61 :: 209 :: encodeCV (mac0InnerArr
        { Protected := [161, 1, 5], Unprotected := [(4, .bytes [49, 49])],
          Payload := [1, 2, 3], Tag := some [132, 100, 77, 65, 67, 48, 67, 161] }
        [132, 100, 77, 65, 67, 48, 67, 161])) :=
  C1_marshal_always_cwt_wrapped _
    { Protected := [161, 1, 5], Unprotected := [(4, .bytes [49, 49])],
      Payload := [1, 2, 3], Tag := some [132, 100, 77, 65, 67, 48, 67, 161] }
    [132, 100, 77, 65, 67, 48, 67, 161] rfl rfl

/-- C4 counterexample: a Mac0Message whose protected header map is non-nil
and holds no alg entry, computed with a MACer whose key algorithm is 5
(not Reserved): Compute succeeds and afterwards the protected headers
still hold no alg entry, refuting the claim that the insertion happens for
every prior alg-free state of the protected headers. -/
theorem C4_counterexample :
    (Mac0Message.Compute bytesCodec fixMsgEmptyProt fixMacer []).2 = none ∧
      fixMacer.keyAlg ≠ AlgorithmReserved ∧
      (Mac0Message.Compute bytesCodec fixMsgEmptyProt fixMacer []).1.Protected = some [] ∧
      IntMap.Has [] HeaderParameterAlg = false :=
  ⟨rfl, by decide, rfl, rfl⟩

/-- C4 (amended): the alg parameter is inserted into the protected headers
by Compute only when the protected map was nil before the call (and the
key's algorithm is not Reserved); a non-nil protected map is never
modified, so an absent alg entry stays absent. -/
theorem C4_alg_insert_only_nil_protected :
    (∀ (T : Type) (codec : PayloadCodec T) (m : Mac0Message T) (macer : MACer)
        (ext : List Nat), m.Protected = none → macer.keyAlg ≠ AlgorithmReserved →
        (Mac0Message.Compute codec m macer ext).1.Protected =
          some [(HeaderParameterAlg, CV.int macer.keyAlg)]) ∧
      (∀ (T : Type) (codec : PayloadCodec T) (m : Mac0Message T) (macer : MACer)
        (ext : List Nat) (p : IntMap), m.Protected = some p →
        (Mac0Message.Compute codec m macer ext).1.Protected = some p) := by
  constructor
  · intro T codec m macer ext hp ha
    have hmis : computeMismatch m.Protected macer = false := by
      rw [hp]
      rfl
    rw [compute_prot_spec codec m macer ext hmis, hp]
    simp [computeProt, ha]
  · intro T codec m macer ext p hp
    cases hmis : computeMismatch m.Protected macer with
    | true =>
        rw [compute_mismatch_spec codec m macer ext hmis]
        exact hp
    | false =>
        rw [compute_prot_spec codec m macer ext hmis, hp]
        simp [computeProt]

theorem C4_alg_insert_only_nil_protected_witness :
    (Mac0Message.Compute bytesCodec fixMsg fixMacer []).1.Protected =
        some [(HeaderParameterAlg, CV.int fixMacer.keyAlg)] ∧
      (Mac0Message.Compute bytesCodec fixMsgEmptyProt fixMacer []).1.Protected = some [] :=
  ⟨C4_alg_insert_only_nil_protected.1 (List Nat) bytesCodec fixMsg fixMacer [] rfl
      (by decide),
    C4_alg_insert_only_nil_protected.2 (List Nat) bytesCodec fixMsgEmptyProt fixMacer [] []
      rfl⟩

theorem decodeCV_arr_head (f : Nat) (bs : List Nat) (vs : List CV) (rest : List Nat)
    (h : decodeCV f bs = some (.arr vs, rest)) :
    ∃ b tail, bs = b :: tail ∧ 128 ≤ b ∧ b < 160 := by
  cases f with
  | zero =>
      rw [show decodeCV 0 = fun _ => none from rfl] at h
      cases h
  | succ f =>
      rw [decodeCV_succ] at h
      cases bs with
      | nil => simp [decodeStep] at h
      | cons b tail =>
          have hb : b / 32 = 4 := by
            simp only [decodeStep] at h
            rcases harg : decodeArg (b % 32) tail with _ | nr
            · rw [harg] at h
              simp at h
            · rw [harg] at h
              simp only [Option.some_bind] at h
              by_cases h0 : b / 32 = 0
              · simp [h0] at h
              · by_cases h1 : b / 32 = 1
                · simp [h0, h1] at h
                · by_cases h2 : b / 32 = 2
                  · rw [if_neg h0, if_neg h1, if_pos h2] at h
                    rcases htd : takeDrop nr.1 nr.2 with _ | xr <;> rw [htd] at h <;>
                      simp at h
                  · by_cases h3 : b / 32 = 3
                    · rw [if_neg h0, if_neg h1, if_neg h2, if_pos h3] at h
                      rcases htd : takeDrop nr.1 nr.2 with _ | xr <;> rw [htd] at h <;>
                        simp at h
                    · by_cases h4 : b / 32 = 4
                      · exact h4
                      · by_cases h5 : b / 32 = 5
                        · rw [if_neg h0, if_neg h1, if_neg h2, if_neg h3, if_neg h4,
                            if_pos h5] at h
                          rcases hkv : decodeKVs (decodeCV f) nr.1 nr.2 with _ | er <;>
                            rw [hkv] at h <;> simp at h
                        · by_cases h6 : b / 32 = 6
                          · rw [if_neg h0, if_neg h1, if_neg h2, if_neg h3, if_neg h4,
                              if_neg h5, if_pos h6] at h
                            rcases hdc : decodeCV f nr.2 with _ | vr <;>
                              rw [hdc] at h <;> simp at h
                          · rw [if_neg h0, if_neg h1, if_neg h2, if_neg h3, if_neg h4,
                              if_neg h5, if_neg h6] at h
                            split_ifs at h <;> simp at h
          exact ⟨b, tail, rfl, by omega, by omega⟩

theorem unmarshalMac0Core_shape {T : Type} (codec : PayloadCodec T) (d2 : List Nat)
    (m : Mac0Message T) (h : unmarshalMac0Core codec d2 = .ok m) :
    ∃ b tail, d2 = b :: tail ∧ 128 ≤ b ∧ b < 160 := by
  unfold unmarshalMac0Core at h
  rcases hdec : decodeCV (d2.length + 1) d2 with _ | vr
  · rw [hdec] at h
    cases h
  · rw [hdec] at h
    obtain ⟨v, rest⟩ := vr
    cases v with
    | arr vs =>
        cases rest with
        | nil => exact decodeCV_arr_head _ _ _ _ hdec
        | cons r rs =>
            rcases vs with _ | ⟨a, _ | ⟨b, _ | ⟨c, _ | ⟨d, _ | ⟨e, tl⟩⟩⟩⟩⟩ <;> cases h
    | int n => cases h
    | bytes bs => cases h
    | byteArr bs => cases h
    | text bs => cases h
    | map es => cases h
    | tagged t v => cases h
    | boolv b => cases h
    | nullv => cases h

theorem stripCWTTag_cwt (r : List Nat) : stripCWTTag (216 :: 61 :: r) = r := by
  simp [stripCWTTag]

theorem stripCWTTag_keep2 (b c : Nat) (r : List Nat) (h : ¬(b = 216 ∧ c = 61)) :
    stripCWTTag (b :: c :: r) = b :: c :: r := by
  simp only [stripCWTTag]
  rw [if_neg h]

theorem stripCWTTag_single (b : Nat) : stripCWTTag [b] = [b] := rfl

theorem stripMac0Tag_mac0 (r : List Nat) : stripMac0Tag (209 :: r) = r := by
  simp [stripMac0Tag]

theorem stripMac0Tag_keep (b : Nat) (r : List Nat) (h : b ≠ 209) :
    stripMac0Tag (b :: r) = b :: r := by
  simp only [stripMac0Tag]
  rw [if_neg h]

/-- C5: tag tolerance on decode.  Whenever UnmarshalCBOR accepts a byte
string in fully tagged form (CWT tag 61 wrapping COSE_Mac0 tag 17 around
the core array), the three variants with the CWT tag removed, with the
COSE_Mac0 tag removed, and with both removed are also accepted and decode
to the same message. -/
theorem C5_tag_tolerance {T : Type} (codec : PayloadCodec T) (core : List Nat)
    (m : Mac0Message T)
    (h : Mac0Message.UnmarshalCBOR codec (216 :: 61 :: 209 :: core) = .ok m) :
    Mac0Message.UnmarshalCBOR codec (209 :: core) = .ok m ∧
      Mac0Message.UnmarshalCBOR codec (216 :: 61 :: core) = .ok m ∧
      Mac0Message.UnmarshalCBOR codec core = .ok m := by
  have hs0 : stripMac0Tag (stripCWTTag (216 :: 61 :: 209 :: core)) = core := by
    rw [stripCWTTag_cwt, stripMac0Tag_mac0]
  have hcore : unmarshalMac0Core codec core = .ok m := by
    unfold Mac0Message.UnmarshalCBOR at h
    rwa [hs0] at h
  obtain ⟨b, tail, hbt, hb1, hb2⟩ := unmarshalMac0Core_shape codec core m hcore
  refine ⟨?_, ?_, ?_⟩
  · unfold Mac0Message.UnmarshalCBOR
    have h1 : stripCWTTag (209 :: core) = 209 :: core := by
      cases core with
      | nil => rfl
      | cons c r => exact stripCWTTag_keep2 209 c r (by omega)
    rw [h1, stripMac0Tag_mac0]
    exact hcore
  · unfold Mac0Message.UnmarshalCBOR
    rw [stripCWTTag_cwt, hbt, stripMac0Tag_keep b tail (by omega), ← hbt]
    exact hcore
  · unfold Mac0Message.UnmarshalCBOR
    have h1 : stripCWTTag core = core := by
      cases core with
      | nil => rfl
      | cons c r =>
          cases r with
          | nil => exact stripCWTTag_single c
          | cons d rs =>
              refine stripCWTTag_keep2 c d rs ?_
              have : c = b := by
                have := hbt
                simp at this
                exact this.1
              omega
    rw [h1, hbt, stripMac0Tag_keep b tail (by omega), ← hbt]
    exact hcore

theorem C5_tag_tolerance_witness :
    Mac0Message.UnmarshalCBOR bytesCodec
        (209 :: [132, 67, 161, 1, 5, 161, 4, 66, 49, 49, 67, 1, 2, 3,
          72, 132, 100, 77, 65, 67, 48, 67, 161]) =
      .ok (⟨some [(1, .int 5)], some [(4, .bytes [49, 49])], [1, 2, 3],
        some ⟨[161, 1, 5], [(4, .bytes [49, 49])], [1, 2, 3],
          some [132, 100, 77, 65, 67, 48, 67, 161]⟩, []⟩ : Mac0Message (List Nat)) ∧
    Mac0Message.UnmarshalCBOR bytesCodec
        (216 :: 61 :: [132, 67, 161, 1, 5, 161, 4, 66, 49, 49, 67, 1, 2, 3,
          72, 132, 100, 77, 65, 67, 48, 67, 161]) =
      .ok ⟨some [(1, .int 5)], some [(4, .bytes [49, 49])], [1, 2, 3],
        some ⟨[161, 1, 5], [(4, .bytes [49, 49])], [1, 2, 3],
          some [132, 100, 77, 65, 67, 48, 67, 161]⟩, []⟩ ∧
    Mac0Message.UnmarshalCBOR bytesCodec
        [132, 67, 161, 1, 5, 161, 4, 66, 49, 49, 67, 1, 2, 3,
          72, 132, 100, 77, 65, 67, 48, 67, 161] =
      .ok ⟨some [(1, .int 5)], some [(4, .bytes [49, 49])], [1, 2, 3],
        some ⟨[161, 1, 5], [(4, .bytes [49, 49])], [1, 2, 3],
          some [132, 100, 77, 65, 67, 48, 67, 161]⟩, []⟩ :=
  C5_tag_tolerance bytesCodec
    [132, 67, 161, 1, 5, 161, 4, 66, 49, 49, 67, 1, 2, 3,
      72, 132, 100, 77, 65, 67, 48, 67, 161]
    ⟨some [(1, .int 5)], some [(4, .bytes [49, 49])], [1, 2, 3],
      some ⟨[161, 1, 5], [(4, .bytes [49, 49])], [1, 2, 3],
        some [132, 100, 77, 65, 67, 48, 67, 161]⟩, []⟩ rfl

theorem encHead_length_le (maj n : Nat) : (encHead maj n).length ≤ 9 := by
  unfold encHead
  split_ifs <;> simp [beBytes]

theorem encIntKey_length_le (k : Int) : (encIntKey k).length ≤ 9 := by
  unfold encIntKey
  split_ifs <;> exact encHead_length_le _ _

theorem encodeCV_ne_nil (v : CV) : encodeCV v ≠ [] := by
  intro hcon
  have h1 := cvDepth_le_encLength v
  have h2 := cvDepth_pos v
  rw [hcon] at h1
  simp at h1
  omega

theorem bindOk {α β : Type} (x : α) (f : α → Except String β) :
    (Except.ok x : Except String α) >>= f = f x := rfl

theorem headersFromBytes_headersBytes (p : IntMap) (hwf : wfCV (.map p) = true) :
    headersFromBytes (headersBytes p) = .ok p := by
  by_cases hp : p.isEmpty
  · have : p = [] := List.isEmpty_iff.mp hp
    subst this
    rfl
  · have hb : headersBytes p = encodeCV (.map p) := by
      unfold headersBytes
      rw [if_neg hp]
    rw [hb]
    unfold headersFromBytes
    rw [if_neg (encodeCV_ne_nil (.map p))]
    have hdec := decodeCV_encodeCV ((encodeCV (.map p)).length + 1) (.map p) []
      (le_trans (cvDepth_le_encLength _) (Nat.le_succ _)) hwf
    rw [List.append_nil] at hdec
    rw [hdec]

theorem payload_if_ok (pay : List Nat) :
    (if pay.length > 0 then Except.ok pay else Except.ok ([] : List Nat)) =
      (.ok pay : Except String (List Nat)) := by
  cases pay <;> simp

theorem unmarshalMac0Core_encode {T : Type} (codec : PayloadCodec T)
    (prot unprot : IntMap) (pay tg : List Nat) (t : T)
    (hwf : wfCV (.arr [.bytes (headersBytes prot), .map unprot, .bytes pay, .bytes tg]) = true)
    (hwfp : wfCV (.map prot) = true)
    (hpaydec : (if pay.length > 0 then codec.dec pay else .ok codec.dflt) = .ok t) :
    unmarshalMac0Core codec
        (encodeCV (.arr [.bytes (headersBytes prot), .map unprot, .bytes pay, .bytes tg])) =
      .ok ⟨some prot, some unprot, t,
        some ⟨headersBytes prot, unprot, pay, some tg⟩, []⟩ := by
  unfold unmarshalMac0Core
  have hdec := decodeCV_encodeCV
    ((encodeCV (.arr [.bytes (headersBytes prot), .map unprot, .bytes pay, .bytes tg])).length + 1)
    (.arr [.bytes (headersBytes prot), .map unprot, .bytes pay, .bytes tg]) []
    (le_trans (cvDepth_le_encLength _) (Nat.le_succ _)) hwf
  rw [List.append_nil] at hdec
  rw [hdec]
  simp only [asBytesField, asMapField, asTagField, bindOk,
    headersFromBytes_headersBytes prot hwfp]
  by_cases hpd : pay.length > 0
  · rw [if_pos hpd] at hpaydec
    rw [if_pos hpd, hpaydec, bindOk]
  · rw [if_neg hpd] at hpaydec
    have hdt : codec.dflt = t := by injection hpaydec
    rw [if_neg hpd, hdt]

theorem insertionSort_singleton (x : Int × List Nat) :
    List.insertionSort pairLe [x] = [x] := by
  simp [List.insertionSort, List.orderedInsert]

theorem headersBytes_singleton_int_length (k a : Int) :
    (headersBytes [(k, CV.int a)]).length ≤ 27 := by
  have h1 := encHead_length_le 5 1
  have h2 := encIntKey_length_le k
  have h3 := encIntKey_length_le a
  simp only [headersBytes, List.isEmpty_cons, encodeCV, encodePairs,
    insertionSort_singleton, flattenPairs, List.flatMap_cons, List.flatMap_nil,
    List.append_nil, List.length_append, List.length_cons, List.length_nil]
  simp only [Bool.false_eq_true, if_false]
  simp only [List.length_append]
  have h4 := encHead_length_le 5 (0 + 1)
  omega

theorem wf_computeProt (p? : Option IntMap) (macer : MACer)
    (halg : -2147483648 ≤ macer.keyAlg ∧ macer.keyAlg < 2147483648)
    (hp : ∀ p, p? = some p → wfCV (.map p) = true) :
    wfCV (.map (computeProt p? macer)) = true := by
  cases p? with
  | some p => exact hp p rfl
  | none =>
      unfold computeProt
      by_cases ha : macer.keyAlg ≠ AlgorithmReserved
      · rw [if_pos ha]
        simp [wfCV, wfCVPairs, sortedKeys, wfInt, HeaderParameterAlg]
        omega
      · rw [if_neg ha]
        rfl

theorem headersBytes_computeProt_length (p? : Option IntMap) (macer : MACer)
    (hp : ∀ p, p? = some p → (headersBytes p).length < 18446744073709551616) :
    (headersBytes (computeProt p? macer)).length < 18446744073709551616 := by
  cases p? with
  | some p => exact hp p rfl
  | none =>
      simp only [computeProt]
      by_cases ha : macer.keyAlg ≠ AlgorithmReserved
      · rw [if_pos ha]
        have := headersBytes_singleton_int_length HeaderParameterAlg macer.keyAlg
        omega
      · rw [if_neg ha]
        simp [headersBytes]

theorem wf_computeUnprot (u? : Option IntMap) (macer : MACer)
    (hkid : macer.keyKid.length < 18446744073709551616)
    (hu : ∀ u, u? = some u → wfCV (.map u) = true) :
    wfCV (.map (computeUnprot u? macer)) = true := by
  cases u? with
  | some u => exact hu u rfl
  | none =>
      unfold computeUnprot
      by_cases hk : macer.keyKid ≠ []
      · rw [if_pos hk]
        simp [wfCV, wfCVPairs, sortedKeys, wfInt, HeaderParameterKid, hkid]
      · rw [if_neg hk]
        rfl

theorem verify_alg_ok (p? : Option IntMap) (macer : MACer)
    (halg : -2147483648 ≤ macer.keyAlg ∧ macer.keyAlg < 2147483648)
    (hmis : computeMismatch p? macer = false) :
    (IntMap.Has (computeProt p? macer) HeaderParameterAlg &&
      decide (algOf (computeProt p? macer) ≠ macer.keyAlg)) = false := by
  cases p? with
  | some p => simpa [computeMismatch, computeProt] using hmis
  | none =>
      unfold computeProt
      by_cases ha : macer.keyAlg ≠ AlgorithmReserved
      · rw [if_pos ha]
        have hlk : lookupIM [(HeaderParameterAlg, CV.int macer.keyAlg)] HeaderParameterAlg =
            some (CV.int macer.keyAlg) := by
          simp [lookupIM]
        have hgi : IntMap.GetInt [(HeaderParameterAlg, CV.int macer.keyAlg)]
            HeaderParameterAlg = .ok macer.keyAlg := by
          simp only [IntMap.GetInt, hlk]
          rw [if_pos ⟨halg.1, halg.2⟩]
        simp [algOf, hgi]
      · rw [if_neg ha]
        simp [IntMap.Has, lookupIM]

theorem computeAndEncode_spec {T : Type} (codec : PayloadCodec T) (m : Mac0Message T)
    (macer : MACer) (ext bs : List Nat) (m2 : Mac0Message T)
    (h : Mac0Message.ComputeAndEncode codec m macer ext = .ok (bs, m2)) :
    (Mac0Message.Compute codec m macer ext).2 = none ∧
      m2 = (Mac0Message.Compute codec m macer ext).1 ∧
      Mac0Message.MarshalCBOR m2 = .ok bs := by
  unfold Mac0Message.ComputeAndEncode at h
  dsimp only at h
  rcases h2 : (Mac0Message.Compute codec m macer ext).2 with _ | e
  · rw [h2] at h
    rcases h3 : Mac0Message.MarshalCBOR (Mac0Message.Compute codec m macer ext).1
      with e' | bs'
    · rw [h3] at h
      cases h
    · rw [h3] at h
      have hb : bs' = bs ∧ (Mac0Message.Compute codec m macer ext).1 = m2 := by
        simpa using h
      refine ⟨rfl, hb.2.symm, ?_⟩
      rw [← hb.2, ← hb.1]
      exact h3
  · rw [h2] at h
    cases h

theorem compute_ok_parts {T : Type} (codec : PayloadCodec T) (m : Mac0Message T)
    (macer : MACer) (ext : List Nat)
    (h : (Mac0Message.Compute codec m macer ext).2 = none) :
    computeMismatch m.Protected macer = false ∧
    ∃ tg, macer.MACCreate (mac0ToMac ⟨headersBytes (computeProt m.Protected macer),
        computeUnprot m.Unprotected macer, codec.enc m.Payload, none⟩ ext) = .ok tg ∧
      (Mac0Message.Compute codec m macer ext).1 = { m with
        Protected := some (computeProt m.Protected macer)
        Unprotected := some (computeUnprot m.Unprotected macer)
        toMac := mac0ToMac ⟨headersBytes (computeProt m.Protected macer),
          computeUnprot m.Unprotected macer, codec.enc m.Payload, none⟩ ext
        mm := some ⟨headersBytes (computeProt m.Protected macer),
          computeUnprot m.Unprotected macer, codec.enc m.Payload, some tg⟩ } := by
  unfold Mac0Message.Compute at *
  split at h
  · cases h
  · rename_i hmis
    dsimp only at h ⊢
    rcases hcr : macer.MACCreate (mac0ToMac
        ⟨headersBytes (computeProt m.Protected macer),
          computeUnprot m.Unprotected macer, codec.enc m.Payload, none⟩ ext) with e | tg
    · rw [hcr] at h
      cases h
    · refine ⟨by simpa using hmis, tg, rfl, ?_⟩
      rw [if_neg hmis]

/-- C3: round trip.  For every payload type T with its codec, every
Mac0Message over T, MACer and externalData for which ComputeAndEncode
succeeds with bytes bs, VerifyMac0Message on bs succeeds and returns a
message whose Payload, Protected and Unprotected equal the fields of the
message as left by the successful Compute.  The hypotheses express that
the payload codec round-trips (decoding an encoding yields the value
back, and only the codec's zero value encodes to empty bytes, since the
decoder substitutes that zero value for an absent payload), that the
MACer is a real MACer (verification accepts the tags it creates, tags
fit CBOR lengths, its algorithm is a 32-bit COSE algorithm identifier)
and that the caller's header maps are CBOR-representable in canonical
form (the association-list representative of an unordered Go map). -/
theorem C3_roundtrip {T : Type} (codec : PayloadCodec T)
    (m : Mac0Message T) (macer : MACer) (ext bs : List Nat)
    (m2 : Mac0Message T)
    (hcodec : ∀ t, codec.dec (codec.enc t) = .ok t)
    (hcodec0 : ∀ t, codec.enc t = [] → codec.dflt = t)
    (hcoh : ∀ msg tg, macer.MACCreate msg = .ok tg → macer.MACVerify msg tg = .ok ())
    (htglen : ∀ msg tg, macer.MACCreate msg = .ok tg → tg.length < 18446744073709551616)
    (halg : -2147483648 ≤ macer.keyAlg ∧ macer.keyAlg < 2147483648)
    (hkid : macer.keyKid.length < 18446744073709551616)
    (hpay : (codec.enc m.Payload).length < 18446744073709551616)
    (hprot : ∀ p, m.Protected = some p → wfCV (.map p) = true ∧
      (headersBytes p).length < 18446744073709551616)
    (hunprot : ∀ u, m.Unprotected = some u → wfCV (.map u) = true)
    (henc : Mac0Message.ComputeAndEncode codec m macer ext = .ok (bs, m2)) :
    ∃ m3, VerifyMac0Message codec macer bs ext = .ok m3 ∧
      m3.Payload = m2.Payload ∧ m3.Protected = m2.Protected ∧
      m3.Unprotected = m2.Unprotected := by
  obtain ⟨h2none, hm2, hmar⟩ := computeAndEncode_spec codec m macer ext bs m2 henc
  obtain ⟨hmis, tg, hcr, hC⟩ := compute_ok_parts codec m macer ext h2none
  have hwfprot : wfCV (.map (computeProt m.Protected macer)) = true :=
    wf_computeProt m.Protected macer halg (fun p hp => (hprot p hp).1)
  have hpblen : (headersBytes (computeProt m.Protected macer)).length <
      18446744073709551616 :=
    headersBytes_computeProt_length m.Protected macer (fun p hp => (hprot p hp).2)
  have hwfunprot : wfCV (.map (computeUnprot m.Unprotected macer)) = true :=
    wf_computeUnprot m.Unprotected macer hkid hunprot
  have htgl := htglen _ _ hcr
  have hwfarr : wfCV (.arr [.bytes (headersBytes (computeProt m.Protected macer)),
      .map (computeUnprot m.Unprotected macer), .bytes (codec.enc m.Payload),
      .bytes tg]) = true := by
    have h1 : wfCV (.bytes (headersBytes (computeProt m.Protected macer))) = true := by
      simp only [wfCV, decide_eq_true_eq]
      exact hpblen
    have h3 : wfCV (.bytes (codec.enc m.Payload)) = true := by
      simp only [wfCV, decide_eq_true_eq]
      exact hpay
    have h4 : wfCV (.bytes tg) = true := by
      simp only [wfCV, decide_eq_true_eq]
      exact htgl
    rw [show wfCV (.arr [.bytes (headersBytes (computeProt m.Protected macer)),
          .map (computeUnprot m.Unprotected macer), .bytes (codec.enc m.Payload),
          .bytes tg]) =
        (decide ((4 : Nat) < 18446744073709551616) &&
          (wfCV (.bytes (headersBytes (computeProt m.Protected macer))) &&
           (wfCV (.map (computeUnprot m.Unprotected macer)) &&
            (wfCV (.bytes (codec.enc m.Payload)) && (wfCV (.bytes tg) && true)))))
        from rfl]
    rw [h1, hwfunprot, h3, h4]
    decide
  have hpd : (if (codec.enc m.Payload).length > 0
      then codec.dec (codec.enc m.Payload) else .ok codec.dflt) = .ok m.Payload := by
    by_cases h0 : (codec.enc m.Payload).length > 0
    · rw [if_pos h0]
      exact hcodec m.Payload
    · rw [if_neg h0]
      have he : codec.enc m.Payload = [] := List.length_eq_zero.mp (by omega)
      rw [hcodec0 m.Payload he]
  have hmm2 : m2.mm = some ⟨headersBytes (computeProt m.Protected macer),
      computeUnprot m.Unprotected macer, codec.enc m.Payload, some tg⟩ := by
    rw [hm2, hC]
  have hmar2 := mac0_marshal_spec m2
    ⟨headersBytes (computeProt m.Protected macer), computeUnprot m.Unprotected macer,
      codec.enc m.Payload, some tg⟩ tg hmm2 rfl
  have hbs : bs = 216 :: 61 :: 209 :: encodeCV (mac0InnerArr
      ⟨headersBytes (computeProt m.Protected macer), computeUnprot m.Unprotected macer,
        codec.enc m.Payload, some tg⟩ tg) := by
    have := hmar.symm.trans hmar2
    simpa using this
  subst hbs
  have hun : Mac0Message.UnmarshalCBOR codec
      (216 :: 61 :: 209 :: encodeCV (mac0InnerArr
        ⟨headersBytes (computeProt m.Protected macer), computeUnprot m.Unprotected macer,
          codec.enc m.Payload, some tg⟩ tg)) =
      .ok ⟨some (computeProt m.Protected macer), some (computeUnprot m.Unprotected macer),
        m.Payload,
        some ⟨headersBytes (computeProt m.Protected macer),
          computeUnprot m.Unprotected macer, codec.enc m.Payload, some tg⟩, []⟩ := by
    unfold Mac0Message.UnmarshalCBOR
    rw [stripCWTTag_cwt, stripMac0Tag_mac0]
    exact unmarshalMac0Core_encode codec (computeProt m.Protected macer)
      (computeUnprot m.Unprotected macer) (codec.enc m.Payload) tg m.Payload
      hwfarr hwfprot hpd
  have hver : Mac0Message.Verify
      (⟨some (computeProt m.Protected macer), some (computeUnprot m.Unprotected macer),
        m.Payload,
        some ⟨headersBytes (computeProt m.Protected macer),
          computeUnprot m.Unprotected macer, codec.enc m.Payload, some tg⟩,
        []⟩ : Mac0Message T) macer ext = .ok () := by
    unfold Mac0Message.Verify
    have hv := verify_alg_ok m.Protected macer halg hmis
    simp only [Option.getD_some, hv, Bool.false_eq_true, if_false]
    exact hcoh _ _ hcr
  refine ⟨⟨some (computeProt m.Protected macer), some (computeUnprot m.Unprotected macer),
    m.Payload,
    some ⟨headersBytes (computeProt m.Protected macer),
      computeUnprot m.Unprotected macer, codec.enc m.Payload, some tg⟩, []⟩,
    ?_, ?_, ?_, ?_⟩
  · unfold VerifyMac0Message
    simp only [hun, hver]
  · rw [hm2, hC]
  · rw [hm2, hC]
  · rw [hm2, hC]

theorem C3_roundtrip_witness :
    ∃ m3, VerifyMac0Message bytesCodec fixMacer
        [216, 61, 209, 132, 67, 161, 1, 5, 161, 4, 66, 49, 49, 67, 1, 2, 3,
          72, 132, 100, 77, 65, 67, 48, 67, 161] [] = .ok m3 ∧
      m3.Payload = (Mac0Message.Compute bytesCodec fixMsg fixMacer []).1.Payload ∧
      m3.Protected = (Mac0Message.Compute bytesCodec fixMsg fixMacer []).1.Protected ∧
      m3.Unprotected = (Mac0Message.Compute bytesCodec fixMsg fixMacer []).1.Unprotected :=
  C3_roundtrip bytesCodec fixMsg fixMacer []
    [216, 61, 209, 132, 67, 161, 1, 5, 161, 4, 66, 49, 49, 67, 1, 2, 3,
      72, 132, 100, 77, 65, 67, 48, 67, 161]
    (Mac0Message.Compute bytesCodec fixMsg fixMacer []).1
    (fun t => rfl)
    (fun t h => h.symm)
    (fun msg tg h => by
      have htg : msg.take 8 = tg := by simpa [fixMacer] using h
      subst htg
      simp [fixMacer])
    (fun msg tg h => by
      have htg : msg.take 8 = tg := by simpa [fixMacer] using h
      subst htg
      simp only [List.length_take]
      omega)
    (by decide) (by decide) (by decide)
    (fun p hp => nomatch hp) (fun u hu => nomatch hu) rfl
